import Mathlib

/-
Verification of the contiguous physical-frame allocator
(src/MP2/MP2_Sources/cont_frame_pool.C, class ContFramePool).

The embedding is shallow: machine integers are natural numbers with explicit
reductions modulo 2^32 (unsigned int) and 2^64 (unsigned long) at the points
where the source narrows; each pool's bitmap is modelled as a map from byte
index to byte value (the physical placement of that buffer, an address cast
in the source, is outside the model, and real memory guarantees every byte
is below 256); fatal assertions in the source are modelled as `none` results.
The class header cont_frame_pool.H is not part of the sources; the constants
and field declarations it contains are modelled from the spec and marked so.
-/

set_option maxRecDepth 100000

namespace ContFramePool

/-- Per-frame tri-state of the allocator (enum FrameState in the source;
`HoS` is the source's abbreviation of head-of-sequence). -/
inductive FrameState
  | Free
  | Used
  | HoS
deriving DecidableEq, Repr

/-- Modelled from the spec: FRAME_SIZE is declared in the missing header
cont_frame_pool.H; the spec fixes it as one process-wide power-of-two
constant, e.g. 4096 bytes. -/
def FRAME_SIZE : Nat := 4096

/-- Modulus of the C type `unsigned int` (used by the source for
`byte_index`, `bit_offset` and `first_frame_of_sequence`). -/
def UINT_MOD : Nat := 2 ^ 32

/-- Modulus of the C type `unsigned long` (used by the source for frame
numbers and the free-frame counter). -/
def ULONG_MOD : Nat := 2 ^ 64

/-- Source: `unsigned int byte_index = _frame_no / 4;` — the unsigned long
quotient is narrowed to unsigned int. -/
def byteIndex (f : Nat) : Nat := (f / 4) % UINT_MOD

/-- Source: `unsigned int bit_offset = (_frame_no * 2) % 8;` (the product is
taken modulo 2^64 first, which `% 8` absorbs since 8 divides 2^64). -/
def bitOffset (f : Nat) : Nat := (f * 2) % 8

/-- Source read of a 2-bit field: `(bitmap[byte_index] >> bit_offset) & 0x3`. -/
def readBits (b off : Nat) : Nat := (b >>> off) &&& 3

/-- Source decoding in get_state: code 0 is Free, 1 is Used, 2 is HoS, and
the unused code 3 trips `assert(false)` (the InvalidState condition). -/
def decodeState : Nat → Option FrameState
  | 0 => some FrameState.Free
  | 1 => some FrameState.Used
  | 2 => some FrameState.HoS
  | _ => none

/-- Source encoding in set_state (the switch on `_state`). -/
def stateCode : FrameState → Nat
  | FrameState.Free => 0
  | FrameState.Used => 1
  | FrameState.HoS => 2

/-- Source write of a 2-bit field:
`bitmap[byte_index] &= ~(0x3 << bit_offset); bitmap[byte_index] |= (state_bits << bit_offset);`
(the store into an `unsigned char` keeps the value below 256, which the
AND against `255 ^^^ mask` reflects). -/
def writeByte (b off c : Nat) : Nat := (b &&& (255 ^^^ (3 <<< off))) ||| (c <<< off)

/-- The per-pool state of class ContFramePool. The pointer/link fields
`next`/`prev` live in the registry model below; `bitmap` is the content of
the pool's bitmap buffer, byte by byte. -/
structure Pool where
  base_frame_no : Nat
  nframes : Nat
  nFreeFrames : Nat
  info_frame_no : Nat
  bitmap : Nat → Nat

/-- ContFramePool::get_state. -/
def get_state (p : Pool) (f : Nat) : Option FrameState :=
  decodeState (readBits (p.bitmap (byteIndex f)) (bitOffset f))

/-- ContFramePool::set_state. -/
def set_state (p : Pool) (f : Nat) (s : FrameState) : Pool :=
  { p with bitmap := fun j =>
      if j = byteIndex f then writeByte (p.bitmap j) (bitOffset f) (stateCode s)
      else p.bitmap j }

/-- Real memory invariant: every byte of a bitmap buffer is below 256
(the buffer is an `unsigned char` array in the source). -/
def byteBound (p : Pool) : Prop := ∀ j, p.bitmap j < 256

/-- Wrapping `unsigned long` subtraction (the source's `nFreeFrames -= _n_frames`). -/
def ulongSub (a b : Nat) : Nat := (a % ULONG_MOD + (ULONG_MOD - b % ULONG_MOD)) % ULONG_MOD

/-- Wrapping `unsigned long` increment (the source's `nFreeFrames++`). -/
def ulongAdd1 (a : Nat) : Nat := (a + 1) % ULONG_MOD

/-- Loop of ContFramePool::mark_inaccessible: `k` frames starting at `cur`
must each read Free and are marked Used; a non-Free (or invalid) frame is
the fatal assert. -/
def markUsedLoop : Pool → Nat → Nat → Option Pool
  | p, _, 0 => some p
  | p, cur, k + 1 =>
    match get_state p cur with
    | some FrameState.Free => markUsedLoop (set_state p cur FrameState.Used) (cur + 1) k
    | _ => none

/-- ContFramePool::mark_inaccessible: assert the base frame is Free, assert
the upper bound of the range (the source checks no lower bound), mark the
head HoS and the `n-1` following frames Used, subtract `n` from the free
counter. -/
def mark_inaccessible (p : Pool) (b n : Nat) : Option Pool :=
  match get_state p b with
  | some FrameState.Free =>
    if b + n ≤ p.base_frame_no + p.nframes then
      match markUsedLoop (set_state p b FrameState.HoS) (b + 1) (n - 1) with
      | some p2 => some { p2 with nFreeFrames := ulongSub p2.nFreeFrames n }
      | none => none
    else none
  | _ => none

/-- ContFramePool::needed_info_frames. -/
def needed_info_frames (n : Nat) : Nat :=
  n / (4 * FRAME_SIZE) + (if n % (4 * FRAME_SIZE) > 0 then 1 else 0)

/-- Scan loop of ContFramePool::get_frames: `cur` is the next frame to visit,
`first`/`cnt` the head (narrowed to unsigned int by the source) and length of
the running streak of Free frames, `fuel` the frames left before the range
ends; exhausting the range is the final `assert(false)` (NoContiguousRegion).
On reaching `n` consecutive Free frames the streak is handed to
mark_inaccessible and its head returned. -/
def scanLoop (p : Pool) (n : Nat) : Nat → Nat → Nat → Nat → Option (Nat × Pool)
  | _, _, _, 0 => none
  | cur, first, cnt, fuel + 1 =>
    match get_state p cur with
    | none => none
    | some FrameState.Free =>
      let first2 := if cnt = 0 then cur % UINT_MOD else first
      if cnt + 1 = n then
        match mark_inaccessible p first2 n with
        | some p2 => some (first2, p2)
        | none => none
      else scanLoop p n (cur + 1) first2 (cnt + 1) fuel
    | some _ => scanLoop p n (cur + 1) first 0 fuel

/-- ContFramePool::get_frames: the entry asserts `nFreeFrames >= _n_frames`
and `_n_frames <= nframes`, then the first-fit scan over the pool's range. -/
def get_frames (p : Pool) (n : Nat) : Option (Nat × Pool) :=
  if n ≤ p.nFreeFrames ∧ n ≤ p.nframes then
    scanLoop p n p.base_frame_no 0 0 p.nframes
  else none

/-- Inner while-loop of ContFramePool::release_frames: walk forward while the
current frame lies inside the pool's range and reads Used, marking each one
Free and bumping the free counter. -/
def releaseLoop : Pool → Nat → Nat → Option Pool
  | p, _, 0 => some p
  | p, cur, fuel + 1 =>
    if cur < p.base_frame_no + p.nframes then
      match get_state p cur with
      | some FrameState.Used =>
        releaseLoop { set_state p cur FrameState.Free with nFreeFrames := ulongAdd1 p.nFreeFrames }
          (cur + 1) fuel
      | some _ => some p
      | none => none
    else some p

/-- Body of ContFramePool::release_frames once the owning pool is found: mark
the first frame Free, bump the counter, then walk the Used tail. The source
performs no head-of-sequence check before doing this. -/
def releasePool (p : Pool) (f : Nat) : Option Pool :=
  releaseLoop { set_state p f FrameState.Free with nFreeFrames := ulongAdd1 p.nFreeFrames }
    (f + 1) (p.base_frame_no + p.nframes)

/-- Initialization loop of the constructor: mark every frame of
`[cur, cur+k)` Free. -/
def setFreeLoop : Pool → Nat → Nat → Pool
  | p, _, 0 => p
  | p, cur, k + 1 => setFreeLoop (set_state p cur FrameState.Free) (cur + 1) k

/-- Per-pool part of the constructor ContFramePool::ContFramePool: assert the
bitmap fits one frame, record the fields, mark the whole range Free, then
either self-host the bitmap (info frame 0: point info_frame_no at base and
allocate the needed info frames from this very pool) or mark the externally
supplied info frame Used in this pool's bitmap. `bm0` is the arbitrary
initial content of the bitmap buffer's memory. -/
def poolInitCore (base count info : Nat) (bm0 : Nat → Nat) : Option Pool :=
  if count ≤ FRAME_SIZE * 4 then
    let p0 : Pool :=
      { base_frame_no := base, nframes := count, nFreeFrames := count,
        info_frame_no := info, bitmap := bm0 }
    let p1 := setFreeLoop p0 base count
    if info = 0 then
      match get_frames { p1 with info_frame_no := base } (needed_info_frames count) with
      | some (_, p2) => some p2
      | none => none
    else some (set_state p1 info FrameState.Used)
  else none

/-- One node of the process-wide registry: a pool together with its
`next`/`prev` links (arena indices, in arrival order). Modelled from the
spec where the source is silent (the links are declared in the missing
header): a fresh pool's links start out null, matching the spec's
null-terminated walk of the list. -/
structure PoolNode where
  pool : Pool
  next : Option Nat
  prev : Option Nat

/-- The process-wide registry: `nodes` holds every constructed pool in
arrival order (a pool's arena index is its identity), `head` is the static
pointer ContFramePool::frame_pools_list. -/
structure Registry where
  nodes : List PoolNode
  head : Option Nat

/-- Initial value of the registry (`frame_pools_list = nullptr`). -/
def emptyRegistry : Registry := { nodes := [], head := none }

/-- Registry wiring of the constructor (source lines 173-181): if no head
exists the new pool becomes the head, otherwise the head's `next` is
redirected to the new pool; the new pool's `prev` is set to the head either
way. The head pointer itself never advances. -/
def registerPool (r : Registry) (p : Pool) : Registry :=
  let id := r.nodes.length
  match r.head with
  | none =>
    { nodes := r.nodes ++ [{ pool := p, next := none, prev := some id }], head := some id }
  | some h =>
    match r.nodes[h]? with
    | some old =>
      { nodes := (r.nodes.set h { old with next := some id })
          ++ [{ pool := p, next := none, prev := some h }],
        head := some h }
    | none => r

/-- Full constructor: per-pool initialization followed by registry wiring. -/
def construct (r : Registry) (base count info : Nat) (bm0 : Nat → Nat) : Option Registry :=
  match poolInitCore base count info bm0 with
  | some p => some (registerPool r p)
  | none => none

/-- A sequence of pool constructions (base, count, info frame, initial bitmap
memory) performed in order. -/
def constructMany : Registry → List (Nat × Nat × Nat × (Nat → Nat)) → Option Registry
  | r, [] => some r
  | r, (b, c, i, bm) :: rest =>
    match construct r b c i bm with
    | some r2 => constructMany r2 rest
    | none => none

/-- Read the registry by following `next` links from a start pointer; the
fuel keeps the walk well-founded. Returns the arena indices visited. -/
def traverseIds (r : Registry) : Option Nat → Nat → List Nat
  | _, 0 => []
  | none, _ => []
  | some i, fuel + 1 =>
    match r.nodes[i]? with
    | none => []
    | some nd => i :: traverseIds r nd.next fuel

/-- The pools reachable from the registry head by following `next`, in visit
order. -/
def registryOrder (r : Registry) : List Nat :=
  traverseIds r r.head (r.nodes.length + 1)

/-- Ownership scan of ContFramePool::release_frames: walk from the head via
`next` links and return the first pool whose range contains `f`. -/
def findOwner (r : Registry) (f : Nat) : Option Nat → Nat → Option Nat
  | _, 0 => none
  | none, _ => none
  | some i, fuel + 1 =>
    match r.nodes[i]? with
    | none => none
    | some nd =>
      if nd.pool.base_frame_no ≤ f ∧ f < nd.pool.base_frame_no + nd.pool.nframes then some i
      else findOwner r f nd.next fuel

/-- ContFramePool::release_frames (static): resolve the owning pool through
the registry, then run the per-pool release on it; finding no owner is the
fatal UnknownFrame assert. -/
def release_frames (r : Registry) (f : Nat) : Option Registry :=
  match findOwner r f r.head (r.nodes.length + 1) with
  | none => none
  | some i =>
    match r.nodes[i]? with
    | none => none
    | some nd =>
      match releasePool nd.pool f with
      | some p2 => some { r with nodes := r.nodes.set i { nd with pool := p2 } }
      | none => none

/-- A run of `n` consecutive frames starting at `h` that all read Free. -/
abbrev allFreeRun (p : Pool) (h n : Nat) : Prop :=
  ∀ i, i < n → get_state p (h + i) = some FrameState.Free

/-- No frame of the pool's range decodes to the invalid 2-bit code. -/
abbrev noInvalidState (p : Pool) : Prop :=
  ∀ f, f < p.base_frame_no + p.nframes → p.base_frame_no ≤ f → get_state p f ≠ none

/-- Definition following the SPEC'S WORDS for comparison (refinement check of
the bitmap addressing), not the source: for frame index `i` RELATIVE to a
pool, the controlling byte is `i / 4` and the bit offset `(i % 4) * 2`,
decoded like get_state. The source indexes by the absolute frame number
instead. -/
def get_state_relative (p : Pool) (i : Nat) : Option FrameState :=
  decodeState ((p.bitmap (i / 4) >>> ((i % 4) * 2)) &&& 3)

/-- Total length of the currently allocated runs of a pool: the number of
frames of the range that do not read Free (each allocated run contributes
its head plus its Used tail, which is exactly its length). -/
def allocatedFrames (p : Pool) : Nat :=
  (List.range p.nframes).countP
    (fun i => !(get_state p (p.base_frame_no + i) == some FrameState.Free))

/-- Well-formed run structure: above the base frame, a Used frame never
directly follows a Free frame (every allocated run is entered through its
HeadOfSequence frame). -/
abbrev usedHasHead (p : Pool) : Prop :=
  ∀ f, f < p.base_frame_no + p.nframes → p.base_frame_no < f →
    get_state p f = some FrameState.Used → get_state p (f - 1) ≠ some FrameState.Free

/-- Concrete test pool: four frames at 0, all Free. -/
def poolA : Pool :=
  { base_frame_no := 0, nframes := 4, nFreeFrames := 4, info_frame_no := 999,
    bitmap := fun _ => 0 % 256 }

/-- Concrete test pool: frames [0,20) with [0,3) and [10,20) Free, [3,10) Used. -/
def poolFF : Pool :=
  { base_frame_no := 0, nframes := 20, nFreeFrames := 13, info_frame_no := 999,
    bitmap := fun j => (if j = 0 then 64 else if j = 1 then 85 else if j = 2 then 5 else 0) % 256 }

/-- Concrete test pool: frames [0,100), all Free. -/
def poolLeft : Pool :=
  { base_frame_no := 0, nframes := 100, nFreeFrames := 100, info_frame_no := 999,
    bitmap := fun _ => 0 % 256 }

/-- Concrete test pool: frames [100,200), with a two-frame run headed at 150
(frame 150 HeadOfSequence, frame 151 Used) and the rest Free. -/
def poolRight : Pool :=
  { base_frame_no := 100, nframes := 100, nFreeFrames := 98, info_frame_no := 998,
    bitmap := fun j => (if j = 37 then 96 else 0) % 256 }

theorem bitOffset_eq (f : Nat) : bitOffset f = 2 * (f % 4) := by
  unfold bitOffset
  rw [Nat.mul_comm f 2, show (8 : Nat) = 2 * 4 from rfl, Nat.mul_mod_mul_left]

theorem stateCode_lt (s : FrameState) : stateCode s < 4 := by
  cases s <;> decide

theorem decodeState_stateCode (s : FrameState) : decodeState (stateCode s) = some s := by
  cases s <;> rfl

theorem readBits_writeByte_same :
    ∀ b < 256, ∀ o < 4, ∀ c < 4, readBits (writeByte b (2 * o) c) (2 * o) = c := by
  decide

theorem readBits_writeByte_other :
    ∀ b < 256, ∀ o < 4, ∀ o2 < 4, ∀ c < 4, o ≠ o2 →
      readBits (writeByte b (2 * o) c) (2 * o2) = readBits b (2 * o2) := by
  decide

theorem writeByte_lt :
    ∀ b < 256, ∀ o < 4, ∀ c < 4, writeByte b (2 * o) c < 256 := by
  decide

theorem set_state_byteBound (p : Pool) (f : Nat) (s : FrameState)
    (hb : byteBound p) : byteBound (set_state p f s) := by
  intro j
  unfold set_state
  dsimp only
  by_cases hj : j = byteIndex f
  · rw [if_pos hj, bitOffset_eq]
    exact writeByte_lt _ (hb j) _ (Nat.mod_lt _ (by decide)) _ (stateCode_lt s)
  · rw [if_neg hj]
    exact hb j

theorem set_state_base (p : Pool) (f : Nat) (s : FrameState) :
    (set_state p f s).base_frame_no = p.base_frame_no := rfl

theorem set_state_nframes (p : Pool) (f : Nat) (s : FrameState) :
    (set_state p f s).nframes = p.nframes := rfl

theorem set_state_nFree (p : Pool) (f : Nat) (s : FrameState) :
    (set_state p f s).nFreeFrames = p.nFreeFrames := rfl

theorem set_state_info (p : Pool) (f : Nat) (s : FrameState) :
    (set_state p f s).info_frame_no = p.info_frame_no := rfl

theorem get_state_set_state_same (p : Pool) (f : Nat) (s : FrameState)
    (hb : byteBound p) : get_state (set_state p f s) f = some s := by
  unfold get_state set_state
  dsimp only
  rw [if_pos rfl]
  rw [bitOffset_eq]
  rw [readBits_writeByte_same _ (hb (byteIndex f)) _ (Nat.mod_lt _ (by decide)) _ (stateCode_lt s)]
  exact decodeState_stateCode s

theorem get_state_set_state_other (p : Pool) (f f' : Nat) (s : FrameState)
    (hb : byteBound p) (hf : f < 2 ^ 34) (hf' : f' < 2 ^ 34) (hne : f ≠ f') :
    get_state (set_state p f s) f' = get_state p f' := by
  unfold get_state set_state
  dsimp only
  by_cases hj : byteIndex f' = byteIndex f
  · rw [if_pos hj, hj]
    have hq : f / 4 < 2 ^ 32 := by omega
    have hq' : f' / 4 < 2 ^ 32 := by omega
    have hbi : byteIndex f = f / 4 := Nat.mod_eq_of_lt hq
    have hbi' : byteIndex f' = f' / 4 := Nat.mod_eq_of_lt hq'
    have hdiv : f / 4 = f' / 4 := by rw [← hbi, ← hbi', hj]
    have hmod : f % 4 ≠ f' % 4 := by omega
    rw [bitOffset_eq, bitOffset_eq]
    rw [readBits_writeByte_other _ (hb (byteIndex f)) _ (Nat.mod_lt _ (by decide))
      _ (Nat.mod_lt _ (by decide)) _ (stateCode_lt s) hmod]
  · rw [if_neg hj]

theorem ulongSub_eq (a b : Nat) (hba : b ≤ a) (ha : a < ULONG_MOD) : ulongSub a b = a - b := by
  unfold ulongSub
  have hb : b < ULONG_MOD := lt_of_le_of_lt hba ha
  rw [Nat.mod_eq_of_lt ha, Nat.mod_eq_of_lt hb]
  have h1 : a + (ULONG_MOD - b) = ULONG_MOD + (a - b) := by omega
  rw [h1, Nat.add_mod_left, Nat.mod_eq_of_lt (by omega)]

theorem ulongAdd1_eq (a : Nat) (ha : a + 1 < ULONG_MOD) : ulongAdd1 a = a + 1 := by
  unfold ulongAdd1
  exact Nat.mod_eq_of_lt ha

theorem setFreeLoop_fields (k : Nat) : ∀ p cur,
    (setFreeLoop p cur k).base_frame_no = p.base_frame_no ∧
    (setFreeLoop p cur k).nframes = p.nframes ∧
    (setFreeLoop p cur k).nFreeFrames = p.nFreeFrames ∧
    (setFreeLoop p cur k).info_frame_no = p.info_frame_no := by
  induction k with
  | zero => intro p cur; exact ⟨rfl, rfl, rfl, rfl⟩
  | succ k ih =>
    intro p cur
    simp only [setFreeLoop]
    exact ih (set_state p cur FrameState.Free) (cur + 1)

theorem setFreeLoop_byteBound (k : Nat) : ∀ p cur, byteBound p →
    byteBound (setFreeLoop p cur k) := by
  induction k with
  | zero => intro p cur hb; exact hb
  | succ k ih =>
    intro p cur hb
    simp only [setFreeLoop]
    exact ih _ _ (set_state_byteBound p cur _ hb)

theorem setFreeLoop_get_state_out (k : Nat) : ∀ p cur, byteBound p → cur + k ≤ 2 ^ 34 →
    ∀ f, f < 2 ^ 34 → (f < cur ∨ cur + k ≤ f) →
    get_state (setFreeLoop p cur k) f = get_state p f := by
  induction k with
  | zero => intro p cur _ _ f _ _; rfl
  | succ k ih =>
    intro p cur hb hbound f hf hout
    simp only [setFreeLoop]
    rw [ih _ _ (set_state_byteBound _ _ _ hb) (by omega) f hf (by omega)]
    exact get_state_set_state_other p cur f _ hb (by omega) hf (by omega)

theorem setFreeLoop_get_state_in (k : Nat) : ∀ p cur, byteBound p → cur + k ≤ 2 ^ 34 →
    ∀ f, cur ≤ f → f < cur + k →
    get_state (setFreeLoop p cur k) f = some FrameState.Free := by
  induction k with
  | zero => intro p cur _ _ f h1 h2; omega
  | succ k ih =>
    intro p cur hb hbound f h1 h2
    simp only [setFreeLoop]
    by_cases hf : f = cur
    · subst hf
      rw [setFreeLoop_get_state_out k _ _ (set_state_byteBound _ _ _ hb) (by omega) f (by omega) (by omega)]
      exact get_state_set_state_same p f _ hb
    · exact ih _ _ (set_state_byteBound _ _ _ hb) (by omega) f (by omega) (by omega)

theorem markUsedLoop_some_iff (k : Nat) : ∀ p cur, byteBound p → cur + k ≤ 2 ^ 34 →
    ((∃ p', markUsedLoop p cur k = some p') ↔
      ∀ i, i < k → get_state p (cur + i) = some FrameState.Free) := by
  induction k with
  | zero =>
    intro p cur _ _
    exact ⟨fun _ i hi => absurd hi (by omega), fun _ => ⟨p, rfl⟩⟩
  | succ k ih =>
    intro p cur hb hbound
    cases hgs : get_state p cur with
    | none =>
      simp only [markUsedLoop, hgs]
      constructor
      · intro ⟨p', hp'⟩; exact absurd hp' (by simp)
      · intro hall
        have := hall 0 (by omega)
        rw [Nat.add_zero, hgs] at this
        exact absurd this (by simp)
    | some s =>
      cases s with
      | Free =>
        simp only [markUsedLoop, hgs]
        have hq := set_state_byteBound p cur FrameState.Used hb
        rw [ih (set_state p cur FrameState.Used) (cur + 1) hq (by omega)]
        constructor
        · intro hall i hi
          cases i with
          | zero => rw [Nat.add_zero]; exact hgs
          | succ j =>
            have := hall j (by omega)
            rw [get_state_set_state_other p cur _ _ hb (by omega) (by omega) (by omega)] at this
            rw [show cur + (j + 1) = cur + 1 + j from by omega]
            exact this
        · intro hall i hi
          rw [get_state_set_state_other p cur _ _ hb (by omega) (by omega) (by omega)]
          rw [show cur + 1 + i = cur + (i + 1) from by omega]
          exact hall (i + 1) (by omega)
      | Used =>
        simp only [markUsedLoop, hgs]
        constructor
        · intro ⟨p', hp'⟩; exact absurd hp' (by simp)
        · intro hall
          have := hall 0 (by omega)
          rw [Nat.add_zero, hgs] at this
          exact absurd this (by simp)
      | HoS =>
        simp only [markUsedLoop, hgs]
        constructor
        · intro ⟨p', hp'⟩; exact absurd hp' (by simp)
        · intro hall
          have := hall 0 (by omega)
          rw [Nat.add_zero, hgs] at this
          exact absurd this (by simp)

theorem markUsedLoop_some_spec (k : Nat) : ∀ p cur p', byteBound p → cur + k ≤ 2 ^ 34 →
    markUsedLoop p cur k = some p' →
    (∀ i, i < k → get_state p' (cur + i) = some FrameState.Used) ∧
    (∀ f, f < 2 ^ 34 → (f < cur ∨ cur + k ≤ f) → get_state p' f = get_state p f) ∧
    p'.base_frame_no = p.base_frame_no ∧ p'.nframes = p.nframes ∧
    p'.nFreeFrames = p.nFreeFrames ∧ p'.info_frame_no = p.info_frame_no ∧ byteBound p' := by
  induction k with
  | zero =>
    intro p cur p' hb _ hm
    have hp : p = p' := by
      have : some p = some p' := hm
      exact Option.some.injEq p p' ▸ this
    subst hp
    exact ⟨fun i hi => absurd hi (by omega), fun f _ _ => rfl, rfl, rfl, rfl, rfl, hb⟩
  | succ k ih =>
    intro p cur p' hb hbound hm
    cases hgs : get_state p cur with
    | none => rw [markUsedLoop, hgs] at hm; exact absurd hm (by simp)
    | some s =>
      cases s with
      | Free =>
        rw [markUsedLoop, hgs] at hm
        have hq := set_state_byteBound p cur FrameState.Used hb
        obtain ⟨hused, hout, hbase, hnf, hfree, hinfo, hbb⟩ := ih _ _ _ hq (by omega) hm
        refine ⟨?_, ?_, ?_, ?_, ?_, ?_, hbb⟩
        · intro i hi
          cases i with
          | zero =>
            rw [Nat.add_zero]
            rw [hout cur (by omega) (by omega)]
            exact get_state_set_state_same p cur _ hb
          | succ j =>
            rw [show cur + (j + 1) = cur + 1 + j from by omega]
            exact hused j (by omega)
        · intro f hf hfout
          rw [hout f hf (by omega)]
          exact get_state_set_state_other p cur f _ hb (by omega) hf (by omega)
        · exact hbase
        · exact hnf
        · exact hfree
        · exact hinfo
      | Used => rw [markUsedLoop, hgs] at hm; exact absurd hm (by simp)
      | HoS => rw [markUsedLoop, hgs] at hm; exact absurd hm (by simp)

theorem mark_inaccessible_some_iff (p : Pool) (b n : Nat) (hb : byteBound p)
    (hb34 : b < 2 ^ 34) (hbound : b + n ≤ 2 ^ 34) :
    (∃ p', mark_inaccessible p b n = some p') ↔
      (get_state p b = some FrameState.Free ∧ b + n ≤ p.base_frame_no + p.nframes ∧
       ∀ i, 1 ≤ i → i < n → get_state p (b + i) = some FrameState.Free) := by
  unfold mark_inaccessible
  cases hgs : get_state p b with
  | none =>
    constructor
    · intro ⟨p', hp'⟩; exact absurd hp' (by simp)
    · intro ⟨h1, _, _⟩; exact absurd h1 (by simp)
  | some s =>
    cases s with
    | Free =>
      by_cases hin : b + n ≤ p.base_frame_no + p.nframes
      · rw [if_pos hin]
        have hq := set_state_byteBound p b FrameState.HoS hb
        have hiff := markUsedLoop_some_iff (n - 1) (set_state p b FrameState.HoS) (b + 1) hq (by omega)
        constructor
        · intro ⟨p', hp'⟩
          refine ⟨rfl, hin, ?_⟩
          cases hmu : markUsedLoop (set_state p b FrameState.HoS) (b + 1) (n - 1) with
          | none => rw [hmu] at hp'; exact absurd hp' (by simp)
          | some p2 =>
            have hall := hiff.mp ⟨p2, hmu⟩
            intro i h1 h2
            have := hall (i - 1) (by omega)
            rw [get_state_set_state_other p b _ _ hb hb34 (by omega) (by omega)] at this
            rw [show b + 1 + (i - 1) = b + i from by omega] at this
            exact this
        · intro ⟨_, _, hall⟩
          have hex : ∃ p2, markUsedLoop (set_state p b FrameState.HoS) (b + 1) (n - 1) = some p2 := by
            rw [hiff]
            intro i hi
            rw [get_state_set_state_other p b _ _ hb hb34 (by omega) (by omega)]
            rw [show b + 1 + i = b + (i + 1) from by omega]
            exact hall (i + 1) (by omega) (by omega)
          obtain ⟨p2, hp2⟩ := hex
          rw [hp2]
          exact ⟨_, rfl⟩
      · rw [if_neg hin]
        constructor
        · intro ⟨p', hp'⟩; exact absurd hp' (by simp)
        · intro ⟨_, h2, _⟩; exact absurd h2 hin
    | Used =>
      constructor
      · intro ⟨p', hp'⟩; exact absurd hp' (by simp)
      · intro ⟨h1, _, _⟩; exact absurd h1 (by simp)
    | HoS =>
      constructor
      · intro ⟨p', hp'⟩; exact absurd hp' (by simp)
      · intro ⟨h1, _, _⟩; exact absurd h1 (by simp)

theorem mark_inaccessible_some_spec (p : Pool) (b n : Nat) (p' : Pool) (hb : byteBound p)
    (hb34 : b < 2 ^ 34) (hbound : b + n ≤ 2 ^ 34)
    (hm : mark_inaccessible p b n = some p') :
    get_state p' b = some FrameState.HoS ∧
    (∀ i, 1 ≤ i → i < n → get_state p' (b + i) = some FrameState.Used) ∧
    (∀ f, f < 2 ^ 34 → (f < b ∨ b + n ≤ f) → f ≠ b → get_state p' f = get_state p f) ∧
    p'.base_frame_no = p.base_frame_no ∧ p'.nframes = p.nframes ∧
    p'.nFreeFrames = ulongSub p.nFreeFrames n ∧ p'.info_frame_no = p.info_frame_no ∧
    byteBound p' := by
  unfold mark_inaccessible at hm
  cases hgs : get_state p b with
  | none => rw [hgs] at hm; exact absurd hm (by simp)
  | some s =>
    cases s with
    | Free =>
      rw [hgs] at hm
      by_cases hin : b + n ≤ p.base_frame_no + p.nframes
      · rw [if_pos hin] at hm
        have hq := set_state_byteBound p b FrameState.HoS hb
        cases hmu : markUsedLoop (set_state p b FrameState.HoS) (b + 1) (n - 1) with
        | none => rw [hmu] at hm; exact absurd hm (by simp)
        | some p2 =>
          rw [hmu] at hm
          obtain ⟨hused, hout, hbase, hnf, hfree, hinfo, hbb⟩ :=
            markUsedLoop_some_spec (n - 1) _ _ _ hq (by omega) hmu
          have hp' : p' = { p2 with nFreeFrames := ulongSub p2.nFreeFrames n } := by
            have := Option.some.injEq
              ({ p2 with nFreeFrames := ulongSub p2.nFreeFrames n }) p' ▸ hm
            exact this.symm
          subst hp'
          have hgs2 : ∀ f, get_state { p2 with nFreeFrames := ulongSub p2.nFreeFrames n } f
              = get_state p2 f := fun f => rfl
          refine ⟨?_, ?_, ?_, ?_, ?_, ?_, ?_, ?_⟩
          · rw [hgs2, hout b hb34 (by omega)]
            exact get_state_set_state_same p b _ hb
          · intro i h1 h2
            rw [hgs2, show b + i = b + 1 + (i - 1) from by omega]
            exact hused (i - 1) (by omega)
          · intro f hf hfout hfb
            rw [hgs2, hout f hf (by omega)]
            exact get_state_set_state_other p b f _ hb hb34 hf (fun h => hfb h.symm)
          · exact hbase
          · exact hnf
          · show ulongSub p2.nFreeFrames n = ulongSub p.nFreeFrames n
            rw [hfree, set_state_nFree]
          · exact hinfo
          · exact hbb
      · rw [if_neg hin] at hm; exact absurd hm (by simp)
    | Used => rw [hgs] at hm; exact absurd hm (by simp)
    | HoS => rw [hgs] at hm; exact absurd hm (by simp)

theorem scanLoop_success (p : Pool) (n : Nat) (hb : byteBound p) (hvalid : noInvalidState p)
    (hrange : p.base_frame_no + p.nframes ≤ 2 ^ 32) (hn1 : 1 ≤ n)
    (hex : ∃ h0, p.base_frame_no ≤ h0 ∧ h0 + n ≤ p.base_frame_no + p.nframes ∧ allFreeRun p h0 n) :
    ∀ fuel cur first cnt,
    cur + fuel = p.base_frame_no + p.nframes →
    cnt < n →
    p.base_frame_no + cnt ≤ cur →
    (∀ i, i < cnt → get_state p (cur - cnt + i) = some FrameState.Free) →
    (cnt ≠ 0 → first = cur - cnt) →
    (∀ h', p.base_frame_no ≤ h' → h' < cur - cnt → ¬ allFreeRun p h' n) →
    ∃ h p2, scanLoop p n cur first cnt fuel = some (h, p2) ∧
      mark_inaccessible p h n = some p2 ∧
      p.base_frame_no ≤ h ∧ h + n ≤ p.base_frame_no + p.nframes ∧
      allFreeRun p h n ∧
      (∀ h', p.base_frame_no ≤ h' → h' < h → ¬ allFreeRun p h' n) := by
  intro fuel
  induction fuel with
  | zero =>
    intro cur first cnt hfuel hcnt hcur hstreak _ hleft
    exfalso
    obtain ⟨h0, hh0b, hh0r, hh0f⟩ := hex
    by_cases hlt : h0 < cur - cnt
    · exact hleft h0 hh0b hlt hh0f
    · omega
  | succ fuel ih =>
    intro cur first cnt hfuel hcnt hcur hstreak hfirst hleft
    have hcurlt : cur < p.base_frame_no + p.nframes := by omega
    cases hgs : get_state p cur with
    | none => exact absurd hgs (hvalid cur hcurlt (by omega))
    | some s =>
      cases s with
      | Free =>
        have hfirst2 : (if cnt = 0 then cur % UINT_MOD else first) = cur - cnt := by
          by_cases hc0 : cnt = 0
          · rw [if_pos hc0, hc0, Nat.sub_zero]
            exact Nat.mod_eq_of_lt (by have : UINT_MOD = 2 ^ 32 := rfl; omega)
          · rw [if_neg hc0]; exact hfirst hc0
        by_cases hsucc : cnt + 1 = n
        · -- streak completes here: the head is cur - cnt
          have hAF : allFreeRun p (cur - cnt) n := by
            intro i hi
            by_cases hic : i < cnt
            · exact hstreak i hic
            · have hieq : i = cnt := by omega
              rw [hieq, show cur - cnt + cnt = cur from by omega]
              exact hgs
          have hmark : ∃ p2, mark_inaccessible p (cur - cnt) n = some p2 := by
            rw [mark_inaccessible_some_iff p _ n hb (by omega) (by omega)]
            refine ⟨?_, by omega, ?_⟩
            · have := hAF 0 (by omega)
              rw [Nat.add_zero] at this
              exact this
            · intro i h1 h2
              exact hAF i h2
          obtain ⟨p2, hp2⟩ := hmark
          refine ⟨cur - cnt, p2, ?_, hp2, by omega, by omega, hAF, ?_⟩
          · simp only [scanLoop, hgs]
            rw [if_pos hsucc, hfirst2, hp2]
          · intro h' hh'b hh'lt
            exact hleft h' hh'b hh'lt
        · -- streak continues
          have hgoal := ih (cur + 1) (if cnt = 0 then cur % UINT_MOD else first) (cnt + 1)
            (by omega) (by omega) (by omega)
            (by
              intro i hi
              rw [show cur + 1 - (cnt + 1) + i = cur - cnt + i from by omega]
              by_cases hic : i < cnt
              · exact hstreak i hic
              · have hieq : i = cnt := by omega
                rw [hieq, show cur - cnt + cnt = cur from by omega]
                exact hgs)
            (fun _ => by rw [hfirst2]; omega)
            (by
              intro h' hh'b hh'lt
              exact hleft h' hh'b (by omega))
          obtain ⟨h, p2, hscan, hrest⟩ := hgoal
          refine ⟨h, p2, ?_, hrest⟩
          simp only [scanLoop, hgs]
          rw [if_neg hsucc]
          exact hscan
      | Used =>
        have hgoal := ih (cur + 1) first 0 (by omega) (by omega) (by omega)
          (fun i hi => absurd hi (by omega))
          (fun hc => absurd rfl hc)
          (by
            intro h' hh'b hh'lt
            by_cases hlt : h' < cur - cnt
            · exact hleft h' hh'b hlt
            · intro hAF
              have := hAF (cur - h') (by omega)
              rw [show h' + (cur - h') = cur from by omega, hgs] at this
              exact absurd this (by simp))
        obtain ⟨h, p2, hscan, hrest⟩ := hgoal
        refine ⟨h, p2, ?_, hrest⟩
        simp only [scanLoop, hgs]
        exact hscan
      | HoS =>
        have hgoal := ih (cur + 1) first 0 (by omega) (by omega) (by omega)
          (fun i hi => absurd hi (by omega))
          (fun hc => absurd rfl hc)
          (by
            intro h' hh'b hh'lt
            by_cases hlt : h' < cur - cnt
            · exact hleft h' hh'b hlt
            · intro hAF
              have := hAF (cur - h') (by omega)
              rw [show h' + (cur - h') = cur from by omega, hgs] at this
              exact absurd this (by simp))
        obtain ⟨h, p2, hscan, hrest⟩ := hgoal
        refine ⟨h, p2, ?_, hrest⟩
        simp only [scanLoop, hgs]
        exact hscan

theorem get_frames_spec (p : Pool) (n : Nat) (hb : byteBound p) (hvalid : noInvalidState p)
    (hrange : p.base_frame_no + p.nframes ≤ 2 ^ 32) (hn1 : 1 ≤ n)
    (hfree : n ≤ p.nFreeFrames)
    (hex : ∃ h0, p.base_frame_no ≤ h0 ∧ h0 + n ≤ p.base_frame_no + p.nframes ∧ allFreeRun p h0 n) :
    ∃ h p2, get_frames p n = some (h, p2) ∧
      mark_inaccessible p h n = some p2 ∧
      p.base_frame_no ≤ h ∧ h + n ≤ p.base_frame_no + p.nframes ∧
      allFreeRun p h n ∧
      (∀ h', p.base_frame_no ≤ h' → h' < h → ¬ allFreeRun p h' n) := by
  unfold get_frames
  have hnn : n ≤ p.nframes := by
    obtain ⟨h0, h1, h2, _⟩ := hex
    omega
  rw [if_pos ⟨hfree, hnn⟩]
  exact scanLoop_success p n hb hvalid hrange hn1 hex p.nframes p.base_frame_no 0 0
    (by omega) (by omega) (by omega)
    (fun i hi => absurd hi (by omega))
    (fun hc => absurd rfl hc)
    (fun h' hh'b hh'lt => absurd hh'lt (by omega))

theorem needed_info_frames_eq_one (count : Nat) (h1 : 1 ≤ count) (h2 : count ≤ FRAME_SIZE * 4) :
    needed_info_frames count = 1 := by
  unfold needed_info_frames FRAME_SIZE at *
  by_cases hm : count % (4 * 4096) > 0
  · rw [if_pos hm]; omega
  · rw [if_neg hm]; omega

theorem poolInitCore_spec_self (base count : Nat) (bm0 : Nat → Nat)
    (hbm0 : ∀ j, bm0 j < 256)
    (hcnt : 1 ≤ count) (hcap : count ≤ FRAME_SIZE * 4) (hrange : base + count ≤ 2 ^ 32) :
    ∃ p, poolInitCore base count 0 bm0 = some p ∧
      p.base_frame_no = base ∧ p.nframes = count ∧
      p.nFreeFrames = count - 1 ∧ p.info_frame_no = base ∧
      get_state p base = some FrameState.HoS ∧
      (∀ f, base < f → f < base + count → get_state p f = some FrameState.Free) ∧
      byteBound p := by
  have hcap16 : count ≤ 16384 := hcap
  set p0 : Pool :=
    { base_frame_no := base, nframes := count, nFreeFrames := count,
      info_frame_no := 0, bitmap := bm0 } with hp0
  have hb0 : byteBound p0 := hbm0
  set p1 := setFreeLoop p0 base count with hp1
  obtain ⟨hf1, hf2, hf3, hf4⟩ := setFreeLoop_fields count p0 base
  have hb1 : byteBound p1 := setFreeLoop_byteBound count p0 base hb0
  have hin1 : ∀ f, base ≤ f → f < base + count → get_state p1 f = some FrameState.Free :=
    fun f hf hflt => setFreeLoop_get_state_in count p0 base hb0 (by omega) f hf hflt
  set q : Pool := { p1 with info_frame_no := base } with hq
  have hqgs : ∀ f, get_state q f = get_state p1 f := fun f => rfl
  have hqb : byteBound q := hb1
  have hqbase : q.base_frame_no = base := hf1
  have hqnf : q.nframes = count := hf2
  have hqfree : q.nFreeFrames = count := hf3
  have hvalid : noInvalidState q := by
    intro f hflt hfge
    rw [hqgs, hin1 f (by omega) (by omega)]
    simp
  have hexr : ∃ h0, q.base_frame_no ≤ h0 ∧ h0 + 1 ≤ q.base_frame_no + q.nframes ∧
      allFreeRun q h0 1 := by
    refine ⟨base, by omega, by omega, ?_⟩
    intro i hi
    have hieq : i = 0 := by omega
    rw [hieq, Nat.add_zero, hqgs, hin1 base (by omega) (by omega)]
  obtain ⟨h, p2, hgf, hmark, hhge, hhle, hAF, hmin⟩ :=
    get_frames_spec q 1 hqb hvalid (by omega) (by omega) (by omega) hexr
  have hhbase : h = base := by
    by_cases hlt : base < h
    · exfalso
      refine hmin base (by omega) hlt ?_
      intro i hi
      have hieq : i = 0 := by omega
      rw [hieq, Nat.add_zero, hqgs, hin1 base (by omega) (by omega)]
    · omega
  rw [hhbase] at hgf hmark hhge hhle
  obtain ⟨hhos, hui, hout, hmb, hmn, hmfree, hminfo, hmbb⟩ :=
    mark_inaccessible_some_spec q base 1 p2 hqb (by omega) (by omega) hmark
  refine ⟨p2, ?_, by omega, by omega, ?_, ?_, hhos, ?_, hmbb⟩
  · unfold poolInitCore
    rw [if_pos hcap]
    dsimp only
    rw [if_pos rfl]
    rw [needed_info_frames_eq_one count hcnt hcap]
    rw [← hp0, ← hp1, ← hq, hgf]
  · rw [hmfree, hqfree, ulongSub_eq count 1 hcnt (by unfold ULONG_MOD; omega)]
  · show p2.info_frame_no = base
    rw [hminfo]
  · intro f hfgt hflt
    rw [hout f (by omega) (by omega) (by omega), hqgs, hin1 f (by omega) (by omega)]

theorem poolInitCore_spec_ext (base count info : Nat) (bm0 : Nat → Nat)
    (hbm0 : ∀ j, bm0 j < 256) (hinfo : info ≠ 0)
    (hcap : count ≤ FRAME_SIZE * 4) (hrange : base + count ≤ 2 ^ 32) (hi34 : info < 2 ^ 34) :
    ∃ p, poolInitCore base count info bm0 = some p ∧
      p.base_frame_no = base ∧ p.nframes = count ∧
      p.nFreeFrames = count ∧ p.info_frame_no = info ∧
      (∀ f, base ≤ f → f < base + count → f ≠ info → get_state p f = some FrameState.Free) ∧
      get_state p info = some FrameState.Used ∧
      byteBound p := by
  set p0 : Pool :=
    { base_frame_no := base, nframes := count, nFreeFrames := count,
      info_frame_no := info, bitmap := bm0 } with hp0
  have hb0 : byteBound p0 := hbm0
  set p1 := setFreeLoop p0 base count with hp1
  obtain ⟨hf1, hf2, hf3, hf4⟩ := setFreeLoop_fields count p0 base
  have hb1 : byteBound p1 := setFreeLoop_byteBound count p0 base hb0
  have hin1 : ∀ f, base ≤ f → f < base + count → get_state p1 f = some FrameState.Free :=
    fun f hf hflt => setFreeLoop_get_state_in count p0 base hb0 (by omega) f hf hflt
  refine ⟨set_state p1 info FrameState.Used, ?_, ?_, ?_, ?_, ?_, ?_, ?_, ?_⟩
  · unfold poolInitCore
    rw [if_pos hcap]
    dsimp only
    rw [if_neg hinfo, ← hp0, ← hp1]
  · rw [set_state_base, hf1]
  · rw [set_state_nframes, hf2]
  · rw [set_state_nFree, hf3]
  · rw [set_state_info, hf4]
  · intro f hfge hflt hfne
    rw [get_state_set_state_other p1 info f FrameState.Used hb1 hi34 (by omega)
      (fun hc => hfne hc.symm)]
    exact hin1 f hfge hflt
  · exact get_state_set_state_same p1 info FrameState.Used hb1
  · exact set_state_byteBound p1 info FrameState.Used hb1

theorem byteBound_poolA : byteBound poolA := fun _ => Nat.mod_lt _ (by decide)

theorem byteBound_poolFF : byteBound poolFF := fun _ => Nat.mod_lt _ (by decide)

theorem byteBound_poolLeft : byteBound poolLeft := fun _ => Nat.mod_lt _ (by decide)

theorem byteBound_poolRight : byteBound poolRight := fun _ => Nat.mod_lt _ (by decide)

/-- C3, counterexample: the claim addresses the bitmap by the POOL-RELATIVE
frame index, but the source addresses it by the absolute frame number. On a
pool constructed at base 4 whose first frame (absolute 4, relative 0) has
just been marked head-of-sequence, get_state of that frame reads
HeadOfSequence while the claimed relative addressing (byte 0/4 = 0, offset
(0%4)*2 = 0) decodes Free. -/
theorem C3_relative_addressing_counterexample :
    ((poolInitCore 4 4 999 (fun _ => 0)).bind (fun p => mark_inaccessible p 4 2)).map
        (fun p => (get_state p (p.base_frame_no + 0), get_state_relative p 0))
      = some (some FrameState.HoS, some FrameState.Free) ∧
    some FrameState.HoS ≠ some FrameState.Free := by
  constructor
  · decide
  · decide

/-- C3, amended: get_state and set_state address the pool's bitmap by the
ABSOLUTE frame number `f`: the controlling byte is `f / 4` and the bit
offset `(f % 4) * 2`, with the encoding Free = 00, Used = 01,
HeadOfSequence = 10; get_state fails with the InvalidState condition
exactly when the two bits decode to 11; a write stores the encoded state at
that position and leaves every other frame's state unchanged. -/
theorem C3_absolute_addressing (p : Pool) (f f2 : Nat) (s : FrameState)
    (hb : byteBound p) (hf : f < 2 ^ 34) (hf2 : f2 < 2 ^ 34) (hne : f2 ≠ f) :
    get_state p f = decodeState ((p.bitmap (f / 4) >>> ((f % 4) * 2)) &&& 3) ∧
    (get_state p f = none ↔ (p.bitmap (f / 4) >>> ((f % 4) * 2)) &&& 3 = 3) ∧
    get_state (set_state p f s) f = some s ∧
    get_state (set_state p f s) f2 = get_state p f2 := by
  have hbi : byteIndex f = f / 4 := Nat.mod_eq_of_lt (by unfold UINT_MOD; omega)
  have hoff : bitOffset f = (f % 4) * 2 := by rw [bitOffset_eq]; omega
  have heq : get_state p f = decodeState ((p.bitmap (f / 4) >>> ((f % 4) * 2)) &&& 3) := by
    unfold get_state readBits
    rw [hbi, hoff]
  refine ⟨heq, ?_, get_state_set_state_same p f s hb,
    get_state_set_state_other p f f2 s hb hf hf2 (fun h => hne h.symm)⟩
  rw [heq]
  have hle : (p.bitmap (f / 4) >>> ((f % 4) * 2)) &&& 3 ≤ 3 := Nat.and_le_right
  set v := (p.bitmap (f / 4) >>> ((f % 4) * 2)) &&& 3 with hv
  interval_cases v <;> simp [decodeState]

/-- Witness for C3_absolute_addressing at a concrete pool and frames. -/
theorem C3_absolute_addressing_witness :
    get_state poolFF 5 = decodeState ((poolFF.bitmap (5 / 4) >>> ((5 % 4) * 2)) &&& 3) ∧
    (get_state poolFF 5 = none ↔ (poolFF.bitmap (5 / 4) >>> ((5 % 4) * 2)) &&& 3 = 3) ∧
    get_state (set_state poolFF 5 FrameState.HoS) 5 = some FrameState.HoS ∧
    get_state (set_state poolFF 5 FrameState.HoS) 6 = get_state poolFF 6 :=
  C3_absolute_addressing poolFF 5 6 FrameState.HoS byteBound_poolFF
    (by decide) (by decide) (by decide)

/-- C7: on every pool state that contains a run of `n` consecutive Free
frames (together with a consistent free counter and no corrupt bitmap
entries), get_frames(n) returns the head of the LEFTMOST such run: if `h0`
is a free run head and no earlier in-range position heads a free run of
length `n`, the scan returns exactly `h0`. -/
theorem C7_first_fit_leftmost (p : Pool) (n h0 : Nat)
    (hb : byteBound p) (hvalid : noInvalidState p)
    (hrange : p.base_frame_no + p.nframes ≤ 2 ^ 32) (hn1 : 1 ≤ n)
    (hfree : n ≤ p.nFreeFrames)
    (hh0b : p.base_frame_no ≤ h0) (hh0r : h0 + n ≤ p.base_frame_no + p.nframes)
    (hh0f : allFreeRun p h0 n)
    (hh0min : ∀ h2, h2 < h0 → p.base_frame_no ≤ h2 → ¬ allFreeRun p h2 n) :
    (get_frames p n).map (fun x => x.1) = some h0 := by
  obtain ⟨h, p2, hgf, _, hhb, _, hAF, hmin⟩ :=
    get_frames_spec p n hb hvalid hrange hn1 hfree ⟨h0, hh0b, hh0r, hh0f⟩
  have hh : h = h0 := by
    by_cases hlt : h < h0
    · exact absurd hAF (hh0min h hlt hhb)
    · by_cases hgt : h0 < h
      · exact absurd hh0f (hmin h0 hh0b hgt)
      · omega
  rw [hgf]
  show some h = some h0
  rw [hh]

/-- Witness for C7_first_fit_leftmost: the spec's own example, frames [0,3)
and [10,20) Free and the rest Used; a request for 5 frames returns head 10. -/
theorem C7_first_fit_leftmost_witness :
    allFreeRun poolFF 10 5 ∧ (get_frames poolFF 5).map (fun x => x.1) = some 10 :=
  ⟨by decide, C7_first_fit_leftmost poolFF 5 10 byteBound_poolFF (by decide) (by decide)
    (by decide) (by decide) (by decide) (by decide) (by decide) (by decide)⟩

/-- C4: for every pool construction (with realistic frame numbers and real
byte memory), every frame of `[base, base+count)` that the construction did
not itself reserve as info storage reads Free through get_state immediately
after construction; the info storage is the first `needed_info_frames`
frames when self-hosting (info frame 0) and the externally supplied info
frame otherwise. -/
theorem C4_construction_initial_states (base count info : Nat) (bm0 : Nat → Nat) (f : Nat)
    (hbm0 : ∀ j, bm0 j < 256) (hrange : base + count ≤ 2 ^ 32) (hi34 : info < 2 ^ 34)
    (hsome : (poolInitCore base count info bm0).isSome = true)
    (hfge : base ≤ f) (hflt : f < base + count)
    (hninfo : if info = 0 then base + needed_info_frames count ≤ f else f ≠ info) :
    (poolInitCore base count info bm0).map (fun p => get_state p f)
      = some (some FrameState.Free) := by
  by_cases hcap : count ≤ FRAME_SIZE * 4
  · by_cases hinfo : info = 0
    · subst hinfo
      rw [if_pos rfl] at hninfo
      have hcnt : 1 ≤ count := by omega
      have hneed := needed_info_frames_eq_one count hcnt hcap
      obtain ⟨p, hp, _, _, _, _, _, hin, _⟩ :=
        poolInitCore_spec_self base count bm0 hbm0 hcnt hcap hrange
      rw [hp]
      show some (get_state p f) = some (some FrameState.Free)
      rw [hin f (by omega) hflt]
    · rw [if_neg hinfo] at hninfo
      obtain ⟨p, hp, _, _, _, _, hin, _, _⟩ :=
        poolInitCore_spec_ext base count info bm0 hbm0 hinfo hcap hrange hi34
      rw [hp]
      show some (get_state p f) = some (some FrameState.Free)
      rw [hin f hfge hflt hninfo]
  · exfalso
    unfold poolInitCore at hsome
    rw [if_neg hcap] at hsome
    exact absurd hsome (by simp)

/-- Witness for C4_construction_initial_states: a self-hosted pool of eight
frames at base 0; frame 5 (past the single info frame) reads Free. -/
theorem C4_construction_initial_states_witness :
    (poolInitCore 0 8 0 (fun _ => 0)).isSome = true ∧
    (poolInitCore 0 8 0 (fun _ => 0)).map (fun p => get_state p 5)
      = some (some FrameState.Free) :=
  ⟨by decide, C4_construction_initial_states 0 8 0 (fun _ => 0) 5
    (fun _ => (by decide : (0 : Nat) < 256))
    (by decide) (by decide) (by decide) (by decide) (by decide) (by decide)⟩

/-- C8: constructing a pool with info frame 0 and a count that needs exactly
one info frame leaves frame `base` marked HeadOfSequence (readable back
through the pool's own bitmap via get_state) and the free counter at
`count - 1`. -/
theorem C8_self_hosting_bootstrap (base count : Nat) (bm0 : Nat → Nat)
    (hbm0 : ∀ j, bm0 j < 256) (hneed : needed_info_frames count = 1)
    (hrange : base + count ≤ 2 ^ 32) :
    (poolInitCore base count 0 bm0).map (fun p => (get_state p base, p.nFreeFrames))
      = some (some FrameState.HoS, count - 1) := by
  have hcc : 1 ≤ count ∧ count ≤ FRAME_SIZE * 4 := by
    unfold needed_info_frames FRAME_SIZE at hneed
    rw [show FRAME_SIZE * 4 = 16384 from rfl]
    by_cases hm : count % (4 * 4096) > 0
    · rw [if_pos hm] at hneed
      exact ⟨by omega, by omega⟩
    · rw [if_neg hm] at hneed
      exact ⟨by omega, by omega⟩
  obtain ⟨p, hp, _, _, hfree, _, hhos, _, _⟩ :=
    poolInitCore_spec_self base count bm0 hbm0 hcc.1 hcc.2 hrange
  rw [hp]
  show some (get_state p base, p.nFreeFrames) = some (some FrameState.HoS, count - 1)
  rw [hhos, hfree]

/-- Witness for C8_self_hosting_bootstrap: eight frames at base 0 need one
info frame; construction yields head state at frame 0 and free count 7. -/
theorem C8_self_hosting_bootstrap_witness :
    needed_info_frames 8 = 1 ∧
    (poolInitCore 0 8 0 (fun _ => 0)).map (fun p => (get_state p 0, p.nFreeFrames))
      = some (some FrameState.HoS, 8 - 1) :=
  ⟨by decide, C8_self_hosting_bootstrap 0 8 (fun _ => 0)
    (fun _ => (by decide : (0 : Nat) < 256)) (by decide) (by decide)⟩

/-- C1, counterexample: after three pool constructions the walk from the
registry head by `next` visits pool 0 and then pool 2, skipping pool 1 — the
head pointer never advances, so the third construction overwrites the first
pool's `next` link. The claim's arrival order would be [0, 1, 2]. -/
theorem C1_arrival_order_counterexample :
    (constructMany emptyRegistry
        [(0, 4, 999, fun _ => 0), (4, 4, 999, fun _ => 0), (8, 4, 999, fun _ => 0)]).map
        registryOrder
      = some [0, 2] ∧ ([0, 2] : List Nat) ≠ [0, 1, 2] := by
  constructor
  · decide
  · decide

/-- C1, amended: for every sequence of at most two pool constructions, the
registry read from its head by following `next` visits the pools in
construction order. (The third construction already breaks arrival order,
as the counterexample shows.) -/
theorem C1_registry_arrival_order_upto_two (params : List (Nat × Nat × Nat × (Nat → Nat)))
    (hk : params.length ≤ 2)
    (hsome : (constructMany emptyRegistry params).isSome = true) :
    (constructMany emptyRegistry params).map registryOrder
      = some (List.range params.length) := by
  cases params with
  | nil => rfl
  | cons a rest =>
    obtain ⟨b, c, i, bm⟩ := a
    cases rest with
    | nil =>
      cases hp : poolInitCore b c i bm with
      | none =>
        simp only [constructMany, construct, hp] at hsome
        exact absurd hsome (by decide)
      | some p =>
        simp only [constructMany, construct, hp]
        rfl
    | cons a2 rest2 =>
      obtain ⟨b2, c2, i2, bm2⟩ := a2
      cases rest2 with
      | nil =>
        cases hp : poolInitCore b c i bm with
        | none =>
          simp only [constructMany, construct, hp] at hsome
          exact absurd hsome (by decide)
        | some p =>
          cases hp2 : poolInitCore b2 c2 i2 bm2 with
          | none =>
            simp only [constructMany, construct, hp, hp2] at hsome
            exact absurd hsome (by decide)
          | some p2 =>
            simp only [constructMany, construct, hp, hp2]
            rfl
      | cons a3 rest3 =>
        exfalso
        simp only [List.length_cons] at hk
        omega

/-- Witness for C1_registry_arrival_order_upto_two: two constructions give
the arrival-order walk [0, 1]. -/
theorem C1_registry_arrival_order_upto_two_witness :
    (([(0, 4, 999, fun _ => 0), (4, 4, 999, fun _ => 0)]
        : List (Nat × Nat × Nat × (Nat → Nat))).length ≤ 2) ∧
    (constructMany emptyRegistry
        ([(0, 4, 999, fun _ => 0), (4, 4, 999, fun _ => 0)]
          : List (Nat × Nat × Nat × (Nat → Nat)))).map registryOrder
      = some (List.range
          ([(0, 4, 999, fun _ => 0), (4, 4, 999, fun _ => 0)]
            : List (Nat × Nat × Nat × (Nat → Nat))).length) :=
  ⟨by decide, C1_registry_arrival_order_upto_two
    ([(0, 4, 999, fun _ => 0), (4, 4, 999, fun _ => 0)]
      : List (Nat × Nat × Nat × (Nat → Nat))) (by decide) (by decide)⟩

/-- C2 (code bug evaluated): releasing frame 0 of a freshly constructed
four-frame pool, whose state is Free (not HeadOfSequence), is NOT rejected:
release_frames succeeds, leaves the frame Free, and pushes the pool's free
counter to 5 on a four-frame pool. The claim (and the source's own
release_frames documentation block) requires a fatal stop with no state
change. -/
theorem C2_release_without_head_check :
    ((construct emptyRegistry 0 4 999 (fun _ => 0)).bind (fun r => release_frames r 0)).map
        (fun r => r.nodes.map (fun nd => (nd.pool.nFreeFrames, get_state nd.pool 0, nd.pool.nframes)))
      = some [(5, some FrameState.Free, 4)] := by
  decide

/-- C5 (code bug evaluated): conservation fails after a single operation.
On a freshly constructed four-frame pool (free count 4, no allocated runs),
calling release_frames on the Free frame 0 yields free count 5 while every
frame still reads Free, so free_count + (sum of allocated run lengths)
= 5 + 0 differs from count = 4. -/
theorem C5_conservation_violated :
    ((construct emptyRegistry 0 4 999 (fun _ => 0)).bind (fun r => release_frames r 0)).map
        (fun r => r.nodes.map (fun nd => (nd.pool.nFreeFrames, allocatedFrames nd.pool, nd.pool.nframes)))
      = some [(5, 0, 4)] ∧ 5 + 0 ≠ 4 := by
  constructor
  · decide
  · decide

/-- C6, counterexample: mark_inaccessible does not verify the lower bound of
the containment precondition. On a pool owning [4,8), reserving [0,2) —
entirely outside the pool's range — succeeds instead of failing fatally. -/
theorem C6_missing_lower_bound_counterexample :
    ((poolInitCore 4 4 999 (fun _ => 0)).bind (fun p => mark_inaccessible p 0 2)).isSome = true ∧
    (poolInitCore 4 4 999 (fun _ => 0)).map (fun p => p.base_frame_no) = some 4 := by
  constructor
  · decide
  · decide

/-- C6, amended: mark_inaccessible(b, n) fails fatally exactly when the base
frame is not Free, or b + n exceeds the pool's upper bound (the lower bound
b >= base is not verified by the source), or an interior frame is not Free;
otherwise it marks b HeadOfSequence, the following n-1 frames Used, and
decrements the free counter by n. -/
theorem C6_mark_inaccessible_amended (p : Pool) (b n : Nat)
    (hb : byteBound p) (hbn : b + n ≤ 2 ^ 32) (hn1 : 1 ≤ n)
    (hnfree : n ≤ p.nFreeFrames) (hfb : p.nFreeFrames < ULONG_MOD) :
    (mark_inaccessible p b n).map
        (fun p2 => (get_state p2 b, p2.nFreeFrames,
          decide (∀ j, j < n → 1 ≤ j → get_state p2 (b + j) = some FrameState.Used)))
      = if get_state p b = some FrameState.Free ∧ b + n ≤ p.base_frame_no + p.nframes ∧
           (∀ j, j < n → 1 ≤ j → get_state p (b + j) = some FrameState.Free)
        then some (some FrameState.HoS, p.nFreeFrames - n, true)
        else none := by
  have hb34 : b < 2 ^ 34 := by omega
  have hbn34 : b + n ≤ 2 ^ 34 := by omega
  have hiff := mark_inaccessible_some_iff p b n hb hb34 hbn34
  by_cases hcond : get_state p b = some FrameState.Free ∧
      b + n ≤ p.base_frame_no + p.nframes ∧
      (∀ j, j < n → 1 ≤ j → get_state p (b + j) = some FrameState.Free)
  · rw [if_pos hcond]
    obtain ⟨p2, hp2⟩ := hiff.mpr ⟨hcond.1, hcond.2.1, fun i h1 h2 => hcond.2.2 i h2 h1⟩
    obtain ⟨hhos, hused, _, _, _, hfree, _, _⟩ :=
      mark_inaccessible_some_spec p b n p2 hb hb34 hbn34 hp2
    rw [hp2]
    show some (get_state p2 b, p2.nFreeFrames, _) = _
    rw [hhos, hfree, ulongSub_eq p.nFreeFrames n hnfree hfb,
      decide_eq_true (fun j hj h1j => hused j h1j hj)]
  · rw [if_neg hcond]
    cases hm : mark_inaccessible p b n with
    | none => rfl
    | some p2 =>
      obtain ⟨h1, h2, h3⟩ := hiff.mp ⟨p2, hm⟩
      exact absurd ⟨h1, h2, fun j hj h1j => h3 j h1j hj⟩ hcond

/-- Witness for C6_mark_inaccessible_amended: reserving [1,3) on an all-Free
four-frame pool succeeds, marks frame 1 HeadOfSequence and frame 2 Used,
and drops the free counter from 4 to 2. -/
theorem C6_mark_inaccessible_amended_witness :
    2 ≤ poolA.nFreeFrames ∧
    (mark_inaccessible poolA 1 2).map
        (fun p2 => (get_state p2 1, p2.nFreeFrames,
          decide (∀ j : Nat, j < 2 → 1 ≤ j → get_state p2 (1 + j) = some FrameState.Used)))
      = if get_state poolA 1 = some FrameState.Free ∧ 1 + 2 ≤ poolA.base_frame_no + poolA.nframes ∧
           (∀ j : Nat, j < 2 → 1 ≤ j → get_state poolA (1 + j) = some FrameState.Free)
        then some (some FrameState.HoS, poolA.nFreeFrames - 2, true)
        else none :=
  ⟨by decide, C6_mark_inaccessible_amended poolA 1 2 byteBound_poolA
    (by decide) (by decide) (by decide) (by decide)⟩

theorem scanLoop_inversion (p : Pool) (n : Nat) (hrange : p.base_frame_no + p.nframes ≤ 2 ^ 32) :
    ∀ fuel cur first cnt h p2,
    cur + fuel = p.base_frame_no + p.nframes →
    p.base_frame_no + cnt ≤ cur →
    (cnt ≠ 0 → first = cur - cnt) →
    scanLoop p n cur first cnt fuel = some (h, p2) →
    mark_inaccessible p h n = some p2 ∧ p.base_frame_no ≤ h := by
  intro fuel
  induction fuel with
  | zero =>
    intro cur first cnt h p2 _ _ _ hscan
    exact absurd hscan (by simp [scanLoop])
  | succ fuel ih =>
    intro cur first cnt h p2 hfuel hcur hfirst hscan
    simp only [scanLoop] at hscan
    cases hgs : get_state p cur with
    | none => rw [hgs] at hscan; exact absurd hscan (by simp)
    | some s =>
      cases s with
      | Free =>
        rw [hgs] at hscan
        have hfirst2 : (if cnt = 0 then cur % UINT_MOD else first) = cur - cnt := by
          by_cases hc0 : cnt = 0
          · rw [if_pos hc0, hc0, Nat.sub_zero]
            exact Nat.mod_eq_of_lt (by have hu : UINT_MOD = 2 ^ 32 := rfl; omega)
          · rw [if_neg hc0]; exact hfirst hc0
        by_cases hsucc : cnt + 1 = n
        · rw [if_pos hsucc] at hscan
          cases hmk : mark_inaccessible p (if cnt = 0 then cur % UINT_MOD else first) n with
          | none => rw [hmk] at hscan; exact absurd hscan (by simp)
          | some q =>
            rw [hmk] at hscan
            have hpair := Option.some.injEq _ _ ▸ hscan
            have hh : (if cnt = 0 then cur % UINT_MOD else first) = h :=
              congrArg Prod.fst hpair
            have hq : q = p2 := congrArg Prod.snd hpair
            rw [← hh, hmk, hq]
            exact ⟨rfl, by omega⟩
        · rw [if_neg hsucc] at hscan
          exact ih (cur + 1) (if cnt = 0 then cur % UINT_MOD else first) (cnt + 1) h p2
            (by omega) (by omega) (fun _ => by rw [hfirst2]; omega) hscan
      | Used =>
        rw [hgs] at hscan
        exact ih (cur + 1) first 0 h p2 (by omega) (by omega) (fun hc0 => absurd rfl hc0) hscan
      | HoS =>
        rw [hgs] at hscan
        exact ih (cur + 1) first 0 h p2 (by omega) (by omega) (fun hc0 => absurd rfl hc0) hscan

theorem get_frames_inversion (p : Pool) (n h : Nat) (p1 : Pool)
    (hrange : p.base_frame_no + p.nframes ≤ 2 ^ 32)
    (hgf : get_frames p n = some (h, p1)) :
    n ≤ p.nFreeFrames ∧ n ≤ p.nframes ∧
    mark_inaccessible p h n = some p1 ∧ p.base_frame_no ≤ h := by
  unfold get_frames at hgf
  by_cases hc : n ≤ p.nFreeFrames ∧ n ≤ p.nframes
  · rw [if_pos hc] at hgf
    obtain ⟨h1, h2⟩ := scanLoop_inversion p n hrange p.nframes p.base_frame_no 0 0 h p1
      rfl (by omega) (fun hc0 => absurd rfl hc0) hgf
    exact ⟨hc.1, hc.2, h1, h2⟩
  · rw [if_neg hc] at hgf
    exact absurd hgf (by simp)

theorem releaseLoop_spec (m : Nat) : ∀ p cur fuel,
    byteBound p →
    p.base_frame_no + p.nframes ≤ 2 ^ 32 →
    p.base_frame_no + p.nframes ≤ cur + fuel →
    cur + m ≤ p.base_frame_no + p.nframes →
    p.nFreeFrames + m < ULONG_MOD →
    (∀ i, i < m → get_state p (cur + i) = some FrameState.Used) →
    (cur + m = p.base_frame_no + p.nframes ∨
      get_state p (cur + m) = some FrameState.Free ∨
      get_state p (cur + m) = some FrameState.HoS) →
    ∃ p2, releaseLoop p cur fuel = some p2 ∧
      (∀ i, i < m → get_state p2 (cur + i) = some FrameState.Free) ∧
      (∀ f, f < 2 ^ 34 → (f < cur ∨ cur + m ≤ f) → get_state p2 f = get_state p f) ∧
      p2.nFreeFrames = p.nFreeFrames + m ∧
      p2.base_frame_no = p.base_frame_no ∧ p2.nframes = p.nframes ∧ byteBound p2 := by
  induction m with
  | zero =>
    intro p cur fuel hb hrange hfuel hm hfb hused hstop
    refine ⟨p, ?_, fun i hi => absurd hi (by omega), fun f _ _ => rfl, by omega, rfl, rfl, hb⟩
    cases fuel with
    | zero => rfl
    | succ fu =>
      by_cases hcs : cur < p.base_frame_no + p.nframes
      · simp only [releaseLoop, if_pos hcs]
        rcases hstop with hline | hline | hline
        · omega
        · rw [Nat.add_zero] at hline; rw [hline]
        · rw [Nat.add_zero] at hline; rw [hline]
      · simp only [releaseLoop, if_neg hcs]
  | succ m ih =>
    intro p cur fuel hb hrange hfuel hm hfb hused hstop
    have hcs : cur < p.base_frame_no + p.nframes := by omega
    cases fuel with
    | zero => exact absurd hfuel (by omega)
    | succ fu =>
      have hcur_used : get_state p cur = some FrameState.Used := by
        have hu0 := hused 0 (by omega)
        rwa [Nat.add_zero] at hu0
      have hbq : byteBound (set_state p cur FrameState.Free) :=
        set_state_byteBound p cur FrameState.Free hb
      have hqfree :
          ({ set_state p cur FrameState.Free with
              nFreeFrames := ulongAdd1 p.nFreeFrames } : Pool).nFreeFrames
            = p.nFreeFrames + 1 :=
        ulongAdd1_eq p.nFreeFrames (by omega)
      have hqgs : ∀ f, get_state ({ set_state p cur FrameState.Free with
          nFreeFrames := ulongAdd1 p.nFreeFrames } : Pool) f
          = get_state (set_state p cur FrameState.Free) f := fun f => rfl
      obtain ⟨p2, hloop, hfreed, hout, hfree2, hbase2, hnf2, hbb2⟩ :=
        ih { set_state p cur FrameState.Free with nFreeFrames := ulongAdd1 p.nFreeFrames }
          (cur + 1) fu hbq hrange
          (show p.base_frame_no + p.nframes ≤ cur + 1 + fu from by omega)
          (show cur + 1 + m ≤ p.base_frame_no + p.nframes from by omega)
          (by rw [hqfree]; omega)
          (by
            intro i hi
            rw [hqgs, get_state_set_state_other p cur (cur + 1 + i) FrameState.Free hb
              (by omega) (by omega) (by omega)]
            have hu := hused (i + 1) (by omega)
            rw [show cur + (i + 1) = cur + 1 + i from by omega] at hu
            exact hu)
          (by
            rcases hstop with hline | hline | hline
            · left
              show cur + 1 + m = p.base_frame_no + p.nframes
              omega
            · right; left
              rw [hqgs, get_state_set_state_other p cur (cur + 1 + m) FrameState.Free hb
                (by omega) (by omega) (by omega)]
              rw [show cur + 1 + m = cur + (m + 1) from by omega]
              exact hline
            · right; right
              rw [hqgs, get_state_set_state_other p cur (cur + 1 + m) FrameState.Free hb
                (by omega) (by omega) (by omega)]
              rw [show cur + 1 + m = cur + (m + 1) from by omega]
              exact hline)
      refine ⟨p2, ?_, ?_, ?_, ?_, hbase2, hnf2, hbb2⟩
      · simp only [releaseLoop, if_pos hcs, hcur_used]
        exact hloop
      · intro i hi
        cases i with
        | zero =>
          rw [Nat.add_zero]
          rw [hout cur (by omega) (by omega), hqgs]
          exact get_state_set_state_same p cur FrameState.Free hb
        | succ j =>
          have hf := hfreed j (by omega)
          rw [show cur + (j + 1) = cur + 1 + j from by omega]
          exact hf
      · intro f hf hfout
        rw [hout f hf (by omega), hqgs]
        exact get_state_set_state_other p cur f FrameState.Free hb (by omega) hf (by omega)
      · rw [hfree2, hqfree]
        omega

theorem releasePool_spec (p : Pool) (h n : Nat)
    (hb : byteBound p) (hrange : p.base_frame_no + p.nframes ≤ 2 ^ 32)
    (hn1 : 1 ≤ n)
    (hhb : p.base_frame_no ≤ h) (hhr : h + n ≤ p.base_frame_no + p.nframes)
    (hfb : p.nFreeFrames + n < ULONG_MOD)
    (hused : ∀ i, 1 ≤ i → i < n → get_state p (h + i) = some FrameState.Used)
    (hstop : h + n = p.base_frame_no + p.nframes ∨
      get_state p (h + n) = some FrameState.Free ∨
      get_state p (h + n) = some FrameState.HoS) :
    ∃ p2, releasePool p h = some p2 ∧
      (∀ i, i < n → get_state p2 (h + i) = some FrameState.Free) ∧
      (∀ f, f < 2 ^ 34 → (f < h ∨ h + n ≤ f) → get_state p2 f = get_state p f) ∧
      p2.nFreeFrames = p.nFreeFrames + n ∧
      p2.base_frame_no = p.base_frame_no ∧ p2.nframes = p.nframes ∧ byteBound p2 := by
  have hbq : byteBound (set_state p h FrameState.Free) :=
    set_state_byteBound p h FrameState.Free hb
  have hqfree :
      ({ set_state p h FrameState.Free with
          nFreeFrames := ulongAdd1 p.nFreeFrames } : Pool).nFreeFrames
        = p.nFreeFrames + 1 :=
    ulongAdd1_eq p.nFreeFrames (by omega)
  have hqgs : ∀ f, get_state ({ set_state p h FrameState.Free with
      nFreeFrames := ulongAdd1 p.nFreeFrames } : Pool) f
      = get_state (set_state p h FrameState.Free) f := fun f => rfl
  obtain ⟨p2, hloop, hfreed, hout, hfree2, hbase2, hnf2, hbb2⟩ :=
    releaseLoop_spec (n - 1)
      { set_state p h FrameState.Free with nFreeFrames := ulongAdd1 p.nFreeFrames }
      (h + 1) (p.base_frame_no + p.nframes) hbq hrange
      (show p.base_frame_no + p.nframes ≤ h + 1 + (p.base_frame_no + p.nframes) from by omega)
      (show h + 1 + (n - 1) ≤ p.base_frame_no + p.nframes from by omega)
      (by rw [hqfree]; omega)
      (by
        intro i hi
        rw [hqgs, get_state_set_state_other p h (h + 1 + i) FrameState.Free hb
          (by omega) (by omega) (by omega)]
        have hu := hused (i + 1) (by omega) (by omega)
        rw [show h + (i + 1) = h + 1 + i from by omega] at hu
        exact hu)
      (by
        rcases hstop with hline | hline | hline
        · left
          show h + 1 + (n - 1) = p.base_frame_no + p.nframes
          omega
        · right; left
          rw [show h + 1 + (n - 1) = h + n from by omega]
          rw [hqgs, get_state_set_state_other p h (h + n) FrameState.Free hb
            (by omega) (by omega) (by omega)]
          exact hline
        · right; right
          rw [show h + 1 + (n - 1) = h + n from by omega]
          rw [hqgs, get_state_set_state_other p h (h + n) FrameState.Free hb
            (by omega) (by omega) (by omega)]
          exact hline)
  refine ⟨p2, hloop, ?_, ?_, ?_, hbase2, hnf2, hbb2⟩
  · intro i hi
    cases i with
    | zero =>
      rw [Nat.add_zero]
      rw [hout h (by omega) (by omega), hqgs]
      exact get_state_set_state_same p h FrameState.Free hb
    | succ j =>
      have hf := hfreed j (by omega)
      rw [show h + (j + 1) = h + 1 + j from by omega]
      exact hf
  · intro f hf hfout
    rw [hout f hf (by omega), hqgs]
    exact get_state_set_state_other p h f FrameState.Free hb (by omega) hf (by omega)
  · rw [hfree2, hqfree]
    omega

theorem mark_inaccessible_range (p : Pool) (b n : Nat) (p2 : Pool)
    (hm : mark_inaccessible p b n = some p2) :
    b + n ≤ p.base_frame_no + p.nframes := by
  unfold mark_inaccessible at hm
  cases hgs : get_state p b with
  | none => rw [hgs] at hm; exact absurd hm (by simp)
  | some s =>
    cases s with
    | Free =>
      rw [hgs] at hm
      by_cases hin : b + n ≤ p.base_frame_no + p.nframes
      · exact hin
      · rw [if_neg hin] at hm; exact absurd hm (by simp)
    | Used => rw [hgs] at hm; exact absurd hm (by simp)
    | HoS => rw [hgs] at hm; exact absurd hm (by simp)

/-- C9: on every well-formed pool state (no corrupt bitmap codes, every Used
frame entered through a HeadOfSequence frame, consistent counters), if
get_frames(n) succeeds returning head h, then immediately releasing h
returns every frame of the run [h, h+n) to Free and restores the pool's
free counter to its pre-allocation value. -/
theorem C9_round_trip (p : Pool) (n h i : Nat)
    (hb : byteBound p) (hvalid : noInvalidState p)
    (hrange : p.base_frame_no + p.nframes ≤ 2 ^ 32)
    (hn1 : 1 ≤ n) (hfb : p.nFreeFrames < ULONG_MOD)
    (hwf : usedHasHead p)
    (hh : (get_frames p n).map (fun x => x.1) = some h)
    (hin : i < n) :
    ((get_frames p n).bind (fun x => releasePool x.2 x.1)).map
        (fun p2 => (get_state p2 (h + i), p2.nFreeFrames))
      = some (some FrameState.Free, p.nFreeFrames) := by
  cases hgf : get_frames p n with
  | none => rw [hgf] at hh; exact absurd hh (by simp)
  | some pr =>
    rw [hgf] at hh
    obtain ⟨h', p1⟩ := pr
    have hh1 : h' = h := by
      have hx : some h' = some h := hh
      exact Option.some.injEq h' h ▸ hx
    rw [hh1] at hgf
    obtain ⟨hfree, hnn, hmk, hhb⟩ := get_frames_inversion p n h p1 hrange hgf
    have hrangeh : h + n ≤ p.base_frame_no + p.nframes := mark_inaccessible_range p h n p1 hmk
    have hb34 : h < 2 ^ 34 := by omega
    obtain ⟨hheadfree, hrangemk, hinterior⟩ :=
      (mark_inaccessible_some_iff p h n hb hb34 (by omega)).mp ⟨p1, hmk⟩
    have hAF : allFreeRun p h n := by
      intro j hj
      cases j with
      | zero => rw [Nat.add_zero]; exact hheadfree
      | succ j2 => exact hinterior (j2 + 1) (by omega) hj
    obtain ⟨hhos1, hused1, hout1, hb1, hn1f, hfree1, _, hbb1⟩ :=
      mark_inaccessible_some_spec p h n p1 hb hb34 (by omega) hmk
    have hp1free : p1.nFreeFrames = p.nFreeFrames - n := by
      rw [hfree1]
      exact ulongSub_eq p.nFreeFrames n hfree hfb
    have hstop1 : h + n = p1.base_frame_no + p1.nframes ∨
        get_state p1 (h + n) = some FrameState.Free ∨
        get_state p1 (h + n) = some FrameState.HoS := by
      by_cases hend : h + n = p.base_frame_no + p.nframes
      · left; rw [hb1, hn1f]; exact hend
      · have hlt : h + n < p.base_frame_no + p.nframes := by omega
        have hsame : get_state p1 (h + n) = get_state p (h + n) :=
          hout1 (h + n) (by omega) (by omega) (by omega)
        cases hterm : get_state p (h + n) with
        | none => exact absurd hterm (hvalid (h + n) hlt (by omega))
        | some s =>
          cases s with
          | Free => right; left; rw [hsame]; exact hterm
          | HoS => right; right; rw [hsame]; exact hterm
          | Used =>
            exfalso
            have hword := hwf (h + n) hlt (by omega) hterm
            have hprev : get_state p (h + n - 1) = some FrameState.Free := by
              have hx := hAF (n - 1) (by omega)
              rw [show h + (n - 1) = h + n - 1 from by omega] at hx
              exact hx
            exact hword hprev
    obtain ⟨p2, hrel, hfreed2, hout2, hfree2c, _, _, _⟩ :=
      releasePool_spec p1 h n hbb1 (by rw [hb1, hn1f]; exact hrange) hn1
        (by rw [hb1]; exact hhb) (by rw [hb1, hn1f]; exact hrangemk)
        (by rw [hp1free]; omega)
        hused1 hstop1
    rw [hh1]
    show (releasePool p1 h).map (fun p2 => (get_state p2 (h + i), p2.nFreeFrames))
      = some (some FrameState.Free, p.nFreeFrames)
    rw [hrel]
    show some (get_state p2 (h + i), p2.nFreeFrames)
      = some (some FrameState.Free, p.nFreeFrames)
    rw [hfreed2 i hin, hfree2c, hp1free, Nat.sub_add_cancel hfree]

/-- Witness for C9_round_trip: on the all-Free four-frame pool, get_frames(2)
returns head 0; releasing 0 returns frame 1 to Free and the counter to 4. -/
theorem C9_round_trip_witness :
    (get_frames poolA 2).map (fun x => x.1) = some 0 ∧
    ((get_frames poolA 2).bind (fun x => releasePool x.2 x.1)).map
        (fun p2 => (get_state p2 (0 + 1), p2.nFreeFrames))
      = some (some FrameState.Free, poolA.nFreeFrames) :=
  ⟨by decide, C9_round_trip poolA 2 0 1 byteBound_poolA (by decide) (by decide)
    (by decide) (by decide) (by decide) (by decide) (by decide)⟩

theorem releaseLoop_total (fuel : Nat) : ∀ p cur,
    byteBound p →
    p.base_frame_no + p.nframes ≤ 2 ^ 32 →
    p.base_frame_no ≤ cur →
    (∀ f, f < p.base_frame_no + p.nframes → p.base_frame_no ≤ f → get_state p f ≠ none) →
    (releaseLoop p cur fuel).isSome = true := by
  induction fuel with
  | zero => intro p cur _ _ _ _; rfl
  | succ fuel ih =>
    intro p cur hb hrange hcur hvalid
    by_cases hcs : cur < p.base_frame_no + p.nframes
    · simp only [releaseLoop, if_pos hcs]
      cases hgs : get_state p cur with
      | none => exact absurd hgs (hvalid cur hcs hcur)
      | some s =>
        cases s with
        | Used =>
          apply ih
          · exact set_state_byteBound p cur FrameState.Free hb
          · exact hrange
          · show p.base_frame_no ≤ cur + 1
            omega
          · intro f2 hflt hfge
            have hflt2 : f2 < p.base_frame_no + p.nframes := hflt
            have hfge2 : p.base_frame_no ≤ f2 := hfge
            by_cases hfc : f2 = cur
            · subst hfc
              show get_state (set_state p f2 FrameState.Free) f2 ≠ none
              rw [get_state_set_state_same p f2 FrameState.Free hb]
              simp
            · show get_state (set_state p cur FrameState.Free) f2 ≠ none
              rw [get_state_set_state_other p cur f2 FrameState.Free hb
                (by omega) (by omega) (fun hc => hfc hc.symm)]
              exact hvalid f2 hflt2 hfge2
        | Free => rfl
        | HoS => rfl
    · simp only [releaseLoop, if_neg hcs]
      rfl

/-- C10: with exactly two pools registered, covering [0,100) and [100,200),
releasing head frame 150 resolves ownership to the second pool and mutates
only it: the registry still holds two pools, the first pool's bitmap
(observed through get_state at any frame) and free counter are untouched,
and the second pool's entry is exactly the per-pool release image of frame
150. -/
theorem C10_ownership_resolution (p1 p2 : Pool) (f g : Nat)
    (h1b : p1.base_frame_no = 0) (h1n : p1.nframes = 100)
    (h2b : p2.base_frame_no = 100) (h2n : p2.nframes = 100)
    (hb2 : byteBound p2)
    (hv2 : noInvalidState p2)
    (hhos : get_state p2 150 = some FrameState.HoS) :
    (release_frames (registerPool (registerPool emptyRegistry p1) p2) 150).map
        (fun r => (r.nodes.length,
          (r.nodes[0]?).map (fun nd => (get_state nd.pool f, nd.pool.nFreeFrames)),
          (r.nodes[1]?).map (fun nd => (get_state nd.pool g, nd.pool.nFreeFrames))))
      = some (2, some (get_state p1 f, p1.nFreeFrames),
          (releasePool p2 150).map (fun q => (get_state q g, q.nFreeFrames))) := by
  have hcond1 : ¬ (p1.base_frame_no ≤ 150 ∧ 150 < p1.base_frame_no + p1.nframes) := by
    rw [h1b, h1n]
    omega
  have hcond2 : p2.base_frame_no ≤ 150 ∧ 150 < p2.base_frame_no + p2.nframes := by
    rw [h2b, h2n]
    omega
  have htot : (releaseLoop
      { set_state p2 150 FrameState.Free with nFreeFrames := ulongAdd1 p2.nFreeFrames }
      151 (p2.base_frame_no + p2.nframes)).isSome = true := by
    apply releaseLoop_total
    · exact set_state_byteBound p2 150 FrameState.Free hb2
    · show p2.base_frame_no + p2.nframes ≤ 2 ^ 32
      rw [h2b, h2n]
      omega
    · show p2.base_frame_no ≤ 151
      rw [h2b]
      omega
    · intro f2 hflt hfge
      have hflt2 : f2 < p2.base_frame_no + p2.nframes := hflt
      have hfge2 : p2.base_frame_no ≤ f2 := hfge
      have hf234 : f2 < 2 ^ 34 := by
        rw [h2b, h2n] at hflt2
        omega
      by_cases hfc : f2 = 150
      · subst hfc
        show get_state (set_state p2 150 FrameState.Free) 150 ≠ none
        rw [get_state_set_state_same p2 150 FrameState.Free hb2]
        simp
      · show get_state (set_state p2 150 FrameState.Free) f2 ≠ none
        rw [get_state_set_state_other p2 150 f2 FrameState.Free hb2
          (by omega) hf234 (fun hc => hfc hc.symm)]
        exact hv2 f2 hflt2 hfge2
  obtain ⟨q, hq⟩ := Option.isSome_iff_exists.mp htot
  have hq2 : releasePool p2 150 = some q := hq
  have hfind : findOwner (registerPool (registerPool emptyRegistry p1) p2) 150
      (registerPool (registerPool emptyRegistry p1) p2).head
      ((registerPool (registerPool emptyRegistry p1) p2).nodes.length + 1) = some 1 := by
    show (if p1.base_frame_no ≤ 150 ∧ 150 < p1.base_frame_no + p1.nframes
        then some 0
        else findOwner (registerPool (registerPool emptyRegistry p1) p2) 150 (some 1) 2)
      = some 1
    rw [if_neg hcond1]
    show (if p2.base_frame_no ≤ 150 ∧ 150 < p2.base_frame_no + p2.nframes
        then some 1
        else findOwner (registerPool (registerPool emptyRegistry p1) p2) 150 none 1)
      = some 1
    rw [if_pos hcond2]
  unfold release_frames
  rw [hfind]
  show (match releasePool p2 150 with
    | some q2 => some { registerPool (registerPool emptyRegistry p1) p2 with
        nodes := (registerPool (registerPool emptyRegistry p1) p2).nodes.set 1
          { pool := q2, next := none, prev := some 0 } }
    | none => none).map
      (fun (r : Registry) => (r.nodes.length,
        (r.nodes[0]?).map (fun (nd : PoolNode) => (get_state nd.pool f, nd.pool.nFreeFrames)),
        (r.nodes[1]?).map (fun (nd : PoolNode) => (get_state nd.pool g, nd.pool.nFreeFrames))))
    = some (2, some (get_state p1 f, p1.nFreeFrames),
        (releasePool p2 150).map (fun q2 => (get_state q2 g, q2.nFreeFrames)))
  rw [hq2]
  rfl

/-- Witness for C10_ownership_resolution: concrete pools over [0,100) and
[100,200) with a two-frame run headed at 150; the release maps through the
registry to the second pool only. -/
theorem C10_ownership_resolution_witness :
    get_state poolRight 150 = some FrameState.HoS ∧
    (release_frames (registerPool (registerPool emptyRegistry poolLeft) poolRight) 150).map
        (fun r => (r.nodes.length,
          (r.nodes[0]?).map (fun nd => (get_state nd.pool 0, nd.pool.nFreeFrames)),
          (r.nodes[1]?).map (fun nd => (get_state nd.pool 150, nd.pool.nFreeFrames))))
      = some (2, some (get_state poolLeft 0, poolLeft.nFreeFrames),
          (releasePool poolRight 150).map (fun q => (get_state q 150, q.nFreeFrames))) :=
  ⟨by decide, C10_ownership_resolution poolLeft poolRight 0 150 (by decide) (by decide)
    (by decide) (by decide) byteBound_poolRight (by decide) (by decide)⟩
